import Mathlib

/-!
Verification of the CDF-matching (quantile-mapping) core shared by
`setup/match_sm_CFD.py` and `setup/rematch_sm_CFD.py`.

The scripts read whitespace-delimited rows, extract one numeric column per
file, build equal-width histograms (`np.histogram` with `bins = int(1e3)`),
form empirical CDFs (`np.cumsum(pdf) / len(sample)`), drop zero-count bins,
fit `scipy.interpolate.InterpolatedUnivariateSpline` interpolants of degree
`k = 3` (forward CDF of A, and the inverse with the x/y roles swapped for B),
and map `Apred_corrected = itp_B_ppf(np.clip(itp_A_cdf(Apred), 0, 1))`,
finally rewriting the records with only the mapped column replaced.

Real arithmetic is embedded as `ℚ` (exact rationals; the scripts' float64 is
idealized as real arithmetic).  `NaN` is modelled as `Option.none` in the
separate NaN-propagation layer.  The third-party constructors are modelled
from their documented contracts:

* `np.histogram(a, bins=n)` with default range: equal-width bins over
  `[min a, max a]`, padded to `[min - 1/2, max + 1/2]` when `min = max`;
  each value is assigned bin `min (n-1) ⌊(a - lo)/w⌋` (all bins half-open,
  the last bin closed — numpy's uniform-bin fast path, exact over ℚ).
* `InterpolatedUnivariateSpline(x, y, k=3)` requires at least `k+1 = 4`
  data points and strictly increasing `x`, raising `ValueError` otherwise.
  With exactly 4 data points there are no interior knots, so the spline is
  the unique degree-3 polynomial through the 4 points, and the default
  `ext=0` evaluation extrapolates that same polynomial outside the data
  range; `splineEval4` below computes it in Lagrange form.  For other data
  sizes evaluation is kept abstract: pipeline definitions are parametric in
  an evaluator `E`, and theorems either do not depend on `E` or hypothesize
  only the interpolation property that the spline satisfies by construction.
-/

namespace NoahDA

/-- `np.clip(x, 0, 1)`: clamp a rational into `[0, 1]`. -/
def clip01 (x : ℚ) : ℚ := min (max x 0) 1

/-- Minimum of a sample (`a.min()` for a nonempty numpy array); 0 on `[]`. -/
def sMin : List ℚ → ℚ
  | [] => 0
  | a :: as => as.foldl min a

/-- Maximum of a sample (`a.max()` for a nonempty numpy array); 0 on `[]`. -/
def sMax : List ℚ → ℚ
  | [] => 0
  | a :: as => as.foldl max a

/-- Lower end of the histogram range: `np.histogram` uses `min a`, padded to
`min a - 1/2` when the sample has zero width. -/
def histLo (A : List ℚ) : ℚ := if sMin A = sMax A then sMin A - 1/2 else sMin A

/-- Upper end of the histogram range, padded to `max a + 1/2` on zero width. -/
def histHi (A : List ℚ) : ℚ := if sMin A = sMax A then sMax A + 1/2 else sMax A

/-- Common width of the `n` equal-width histogram bins. -/
def binW (A : List ℚ) (n : ℕ) : ℚ := (histHi A - histLo A) / n

/-- The `i`-th histogram bin edge (`A_edges[i]`), `0 ≤ i ≤ n`. -/
def edge (A : List ℚ) (n i : ℕ) : ℚ := histLo A + i * binW A n

/-- Bin representative value as the script computes it:
`A_centers = A_edges[1:] - ((A_edges[1] - A_edges[0]) / 2)`. -/
def center (A : List ℚ) (n i : ℕ) : ℚ :=
  edge A n (i + 1) - (edge A n 1 - edge A n 0) / 2

/-- Index of the bin receiving value `a`: numpy's uniform-bin assignment
`min (n-1) ⌊(a - lo)/w⌋`, exact over ℚ for in-range values. -/
def binIdx (A : List ℚ) (n : ℕ) (a : ℚ) : ℕ :=
  min (n - 1) (⌊(a - histLo A) / binW A n⌋.toNat)

/-- Bin count `A_pdf[i]`: number of sample values assigned to bin `i`. -/
def count (A : List ℚ) (n i : ℕ) : ℕ :=
  A.countP (fun a => binIdx A n a == i)

/-- Cumulative count `np.cumsum(A_pdf)[i]`. -/
def cumCount (A : List ℚ) (n i : ℕ) : ℕ :=
  ∑ j ∈ Finset.range (i + 1), count A n j

/-- Empirical CDF value `A_cdf[i] = np.cumsum(A_pdf)[i] / len(A)`. -/
def cdfVal (A : List ℚ) (n i : ℕ) : ℚ := (cumCount A n i : ℚ) / (A.length : ℚ)

/-- Indices of the retained bins: `A_pdf > 0` boolean filtering. -/
def keptIdx (A : List ℚ) (n : ℕ) : List ℕ :=
  (List.range n).filter (fun i => decide (0 < count A n i))

/-- `A_centers[A_pdf > 0]`: retained bin representative values. -/
def keptCenters (A : List ℚ) (n : ℕ) : List ℚ :=
  (keptIdx A n).map (center A n)

/-- `A_cdf[A_pdf > 0]`: retained cumulative fractions. -/
def keptCdf (A : List ℚ) (n : ℕ) : List ℚ :=
  (keptIdx A n).map (cdfVal A n)

/-- Strict-increase test on abscissae, as `InterpolatedUnivariateSpline`
checks `np.all(np.diff(x) > 0)`: every adjacent pair strictly increases. -/
def strictIncr : List ℚ → Bool
  | [] => true
  | [_] => true
  | a :: b :: rest => decide (a < b) && strictIncr (b :: rest)

/-- Constructor checks of `InterpolatedUnivariateSpline(x, y, k=3)`, modelled
from scipy's documented contract: at least `k+1 = 4` points with strictly
increasing abscissae, else a `ValueError`.  The spline object itself carries
no data we need beyond its evaluator, so success is `Unit`. -/
def mkSpline (xs ys : List ℚ) : Except String Unit :=
  if xs.length ≤ 3 ∨ xs.length ≠ ys.length then
    Except.error "x and y arrays must have at least k+1 elements"
  else if strictIncr xs then Except.ok ()
  else Except.error "x must be strictly increasing"

/-- An abstract spline evaluator: given the data points `(xs, ys)` fed to the
constructor, evaluate the fitted spline at a query abscissa. -/
abbrev Evaluator := List ℚ → List ℚ → ℚ → ℚ

/-- One Lagrange basis numerator/denominator factor for 4-point data. -/
def lagBasis (a b c d t : ℚ) : ℚ :=
  ((t - b) * (t - c) * (t - d)) / ((a - b) * (a - c) * (a - d))

/-- Degree-3 interpolating spline through exactly 4 data points, in Lagrange
form.  For 4 points `InterpolatedUnivariateSpline(·, ·, k=3)` has no interior
knots, so this is exactly the fitted spline, and (`ext=0`) also its value
outside the data range. -/
def splineEval4 (xs ys : List ℚ) (t : ℚ) : ℚ :=
  ys.getD 0 0 * lagBasis (xs.getD 0 0) (xs.getD 1 0) (xs.getD 2 0) (xs.getD 3 0) t +
  ys.getD 1 0 * lagBasis (xs.getD 1 0) (xs.getD 0 0) (xs.getD 2 0) (xs.getD 3 0) t +
  ys.getD 2 0 * lagBasis (xs.getD 2 0) (xs.getD 0 0) (xs.getD 1 0) (xs.getD 3 0) t +
  ys.getD 3 0 * lagBasis (xs.getD 3 0) (xs.getD 0 0) (xs.getD 1 0) (xs.getD 2 0) t

/-- The per-value mapping of line 72 of both scripts:
`itp_B_ppf(np.clip(itp_A_cdf(v), 0, 1))`, with `E` evaluating the splines. -/
def mapValue (E : Evaluator) (A B : List ℚ) (n : ℕ) (v : ℚ) : ℚ :=
  E (keptCdf B n) (keptCenters B n)
    (clip01 (E (keptCenters A n) (keptCdf A n) v))

/-- Lines 48–76 of `match_sm_CFD.py`: histogram/CDF construction for `A` and
`B`, zero-bin filtering, the two spline constructors (in source order:
`itp_A_cdf` first, then `itp_B_ppf` with the x/y roles swapped), and the
mapping of `Apred = A` through `itp_B_ppf(np.clip(itp_A_cdf(·), 0, 1))`. -/
def matchCore (E : Evaluator) (A B : List ℚ) (n : ℕ) : Except String (List ℚ) :=
  match mkSpline (keptCenters A n) (keptCdf A n) with
  | Except.error e => Except.error e
  | Except.ok _ =>
    match mkSpline (keptCdf B n) (keptCenters B n) with
    | Except.error e => Except.error e
    | Except.ok _ => Except.ok (A.map (mapValue E A B n))

/-- Lines 48–76 of `rematch_sm_CFD.py` (textually identical to
`match_sm_CFD.py` there): same construction, same mapping of `Apred = A`. -/
def rematchCore (E : Evaluator) (A B : List ℚ) (n : ℕ) : Except String (List ℚ) :=
  match mkSpline (keptCenters A n) (keptCdf A n) with
  | Except.error e => Except.error e
  | Except.ok _ =>
    match mkSpline (keptCdf B n) (keptCenters B n) with
    | Except.error e => Except.error e
    | Except.ok _ => Except.ok (A.map (mapValue E A B n))

/-- The scripts' quantile parameter `nQuantiles = 1e3`, as `int(nQuantiles)`. -/
def nQuantiles : ℕ := 1000

/-- Error component of a core result, for stating which error (if any) the
mapping produced. -/
def errOf : Except String (List ℚ) → Option String
  | Except.error e => some e
  | Except.ok _ => none

/-- Decidable equality on core results, so concrete runs can be checked by
evaluation. -/
instance {α : Type} [DecidableEq α] : DecidableEq (Except String α) := fun a b =>
  match a, b with
  | Except.error e, Except.error f =>
    if h : e = f then Decidable.isTrue (congrArg Except.error h)
    else Decidable.isFalse (fun hc => h (Except.error.inj hc))
  | Except.error _, Except.ok _ => Decidable.isFalse (fun hc => Except.noConfusion hc)
  | Except.ok _, Except.error _ => Decidable.isFalse (fun hc => Except.noConfusion hc)
  | Except.ok u, Except.ok v =>
    if h : u = v then Decidable.isTrue (congrArg Except.ok h)
    else Decidable.isFalse (fun hc => h (Except.ok.inj hc))

/-- NaN-aware spline evaluation: FITPACK's `splev` maps a NaN query to NaN
(`none` models IEEE NaN); on a number it evaluates the fitted spline. -/
def evalNaN (f : ℚ → ℚ) (v : Option ℚ) : Option ℚ := v.map f

/-- NaN-aware `np.clip(·, 0, 1)`: NaN propagates, numbers are clamped. -/
def clipNaN (v : Option ℚ) : Option ℚ := v.map clip01

/-- Line 72 of both scripts on a query holding possible NaNs:
`itp_B_ppf(np.clip(itp_A_cdf(query), 0, 1))` elementwise, where `F` evaluates
the already-fitted forward spline of the source and `Q` the inverse spline of
the target (both built from valid, NaN-free samples). -/
def mapQueryNaN (F Q : ℚ → ℚ) (query : List (Option ℚ)) : List (Option ℚ) :=
  query.map (fun v => evalNaN Q (clipNaN (evalNaN F v)))

/-- Writer loop of `match_sm_CFD.py` (lines 95–101): re-read the record rows,
zip them with `Apred_corrected`, replace field 5 of each row with the mapped
value, and emit the rows in order.  Rows are field lists; serialization
(space-joining) carries no further information about field values. -/
def matchWriter (rows : List (List ℚ)) (vals : List ℚ) : List (List ℚ) :=
  (rows.zip vals).map (fun rv => rv.1.set 5 rv.2)

/-- Writer loop of `rematch_sm_CFD.py` (lines 95–104): as `matchWriter` but on
column 10, and the replacement only happens while `count_row < 17520`; later
rows are emitted unchanged (`count_row` increments once per written row). -/
def rematchWriter (rows : List (List ℚ)) (vals : List ℚ) : List (List ℚ) :=
  ((rows.zip vals).enum).map
    (fun p => if p.1 < 17520 then p.2.1.set 10 p.2.2 else p.2.1)

/-- Reader of `open_mean.out` (lines 34–38 of `match_sm_CFD.py`): every row
contributes `float(row[7])`, and `count_out` ends as the row count. -/
def readTarget (rows : List (List ℚ)) : List ℚ := rows.map (fun r => r.getD 7 0)

/-- Reader of `obs.orig` (lines 40–46 of `match_sm_CFD.py`): each row
contributes `float(row[5])` and increments `count_obs`, breaking after the
append once `count_obs == count_out` — so a cap of `0` is never hit. -/
def readObsCapped (cap : ℕ) : ℕ → List (List ℚ) → List ℚ
  | _, [] => []
  | c, r :: rs => r.getD 5 0 :: (if c + 1 = cap then [] else readObsCapped cap (c + 1) rs)

/-- End-to-end `match_sm_CFD.py`: read `B` from all rows of `open_mean.out`,
read `A` from `obs.orig` capped at `count_out`, run the core mapping, and
write the records with column 5 replaced.  On a spline-constructor error the
script dies before the writer loop, producing no output rows. -/
def matchScript (E : Evaluator) (n : ℕ) (obsRows outRows : List (List ℚ)) :
    Except String (List (List ℚ)) :=
  (matchCore E (readObsCapped outRows.length 0 obsRows) (readTarget outRows) n).map
    (fun vals => matchWriter obsRows vals)

/-- Concrete source sample: five values in four equal-width bins
(counts 1,1,1,2; centers 1/2, 3/2, 5/2, 7/2; CDF 1/5, 2/5, 3/5, 1). -/
def qA : List ℚ := [0, 1, 2, 3, 4]

/-- Concrete target sample, `qA` rescaled by 10 (counts 1,1,1,2; centers
15, 25, 35, 45; CDF 1/5, 2/5, 3/5, 1). -/
def qB : List ℚ := [10, 20, 30, 40, 50]

/-- Record rows feeding `obs.orig` in the end-to-end witness run: field 5
holds the source sample `qA`. -/
def obsRowsW : List (List ℚ) :=
  [[0, 0, 0, 0, 0, 0], [0, 0, 0, 0, 0, 1], [0, 0, 0, 0, 0, 2],
   [0, 0, 0, 0, 0, 3], [0, 0, 0, 0, 0, 4]]

/-- Record rows feeding `open_mean.out` in the end-to-end witness run:
field 7 holds the target sample `qB`. -/
def outRowsW : List (List ℚ) :=
  [[0, 0, 0, 0, 0, 0, 0, 10], [0, 0, 0, 0, 0, 0, 0, 20],
   [0, 0, 0, 0, 0, 0, 0, 30], [0, 0, 0, 0, 0, 0, 0, 40],
   [0, 0, 0, 0, 0, 0, 0, 50]]

/-- Output rows of the witness run of `matchScript` under the constantly-zero
evaluator: every row has field 5 replaced by the mapped value 0. -/
def writtenW : List (List ℚ) :=
  [[0, 0, 0, 0, 0, 0], [0, 0, 0, 0, 0, 0], [0, 0, 0, 0, 0, 0],
   [0, 0, 0, 0, 0, 0], [0, 0, 0, 0, 0, 0]]

/-- An eleven-field record row (indices 0–10) used to exercise the re-match
writer on a concrete input. -/
def rowW : List ℚ := [0, 1, 2, 3, 4, 5, 6, 7, 8, 9, 10]

end NoahDA

namespace NoahDA

lemma foldl_min_le_init (as : List ℚ) (a : ℚ) : as.foldl min a ≤ a := by
  induction as generalizing a with
  | nil => simp
  | cons b bs ih => exact le_trans (ih (min a b)) (min_le_left a b)

lemma foldl_min_le_mem {as : List ℚ} {b : ℚ} (h : b ∈ as) (a : ℚ) :
    as.foldl min a ≤ b := by
  induction as generalizing a with
  | nil => cases h
  | cons c cs ih =>
    rcases List.mem_cons.mp h with rfl | hb
    · exact le_trans (foldl_min_le_init cs (min a b)) (min_le_right a b)
    · exact ih hb (min a c)

lemma sMin_le_mem {A : List ℚ} {a : ℚ} (h : a ∈ A) : sMin A ≤ a := by
  cases A with
  | nil => cases h
  | cons b bs =>
    rcases List.mem_cons.mp h with rfl | hb
    · exact foldl_min_le_init bs a
    · exact foldl_min_le_mem hb b

lemma le_foldl_max_init (as : List ℚ) (a : ℚ) : a ≤ as.foldl max a := by
  induction as generalizing a with
  | nil => simp
  | cons b bs ih => exact le_trans (le_max_left a b) (ih (max a b))

lemma mem_le_foldl_max {as : List ℚ} {b : ℚ} (h : b ∈ as) (a : ℚ) :
    b ≤ as.foldl max a := by
  induction as generalizing a with
  | nil => cases h
  | cons c cs ih =>
    rcases List.mem_cons.mp h with rfl | hb
    · exact le_trans (le_max_right a b) (le_foldl_max_init cs (max a b))
    · exact ih hb (max a c)

lemma mem_le_sMax {A : List ℚ} {a : ℚ} (h : a ∈ A) : a ≤ sMax A := by
  cases A with
  | nil => cases h
  | cons b bs =>
    rcases List.mem_cons.mp h with rfl | hb
    · exact le_foldl_max_init bs a
    · exact mem_le_foldl_max hb b

lemma foldl_max_mem (as : List ℚ) (a : ℚ) :
    as.foldl max a = a ∨ as.foldl max a ∈ as := by
  induction as generalizing a with
  | nil => exact Or.inl rfl
  | cons b bs ih =>
    rcases ih (max a b) with h | h
    · rcases max_cases a b with ⟨h1, _⟩ | ⟨h1, _⟩
      · exact Or.inl (by rw [List.foldl_cons, h, h1])
      · exact Or.inr (by rw [List.foldl_cons, h, h1]; exact List.mem_cons_self b bs)
    · exact Or.inr (List.mem_cons_of_mem b h)

lemma sMax_mem {A : List ℚ} (hA : A ≠ []) : sMax A ∈ A := by
  cases A with
  | nil => exact absurd rfl hA
  | cons b bs =>
    rcases foldl_max_mem bs b with h | h
    · rw [sMax, h]; exact List.mem_cons_self b bs
    · exact List.mem_cons_of_mem b h

lemma sMin_le_sMax {A : List ℚ} (hA : A ≠ []) : sMin A ≤ sMax A := by
  cases A with
  | nil => exact absurd rfl hA
  | cons b bs =>
    exact le_trans (sMin_le_mem (List.mem_cons_self b bs))
      (mem_le_sMax (List.mem_cons_self b bs))

lemma histLo_le_mem {A : List ℚ} {a : ℚ} (h : a ∈ A) : histLo A ≤ a := by
  rw [histLo]
  split
  · linarith [sMin_le_mem h]
  · exact sMin_le_mem h

lemma mem_le_histHi {A : List ℚ} {a : ℚ} (h : a ∈ A) : a ≤ histHi A := by
  rw [histHi]
  split
  · linarith [mem_le_sMax h]
  · exact mem_le_sMax h

lemma histLo_lt_histHi {A : List ℚ} (hA : A ≠ []) : histLo A < histHi A := by
  rw [histLo, histHi]
  by_cases h : sMin A = sMax A
  · rw [if_pos h, if_pos h]; linarith
  · rw [if_neg h, if_neg h]; exact lt_of_le_of_ne (sMin_le_sMax hA) h

lemma binW_pos {A : List ℚ} {n : ℕ} (hA : A ≠ []) (hn : 0 < n) :
    0 < binW A n := by
  have : (0:ℚ) < n := by exact_mod_cast hn
  exact div_pos (sub_pos.mpr (histLo_lt_histHi hA)) this

lemma binIdx_lt {A : List ℚ} {n : ℕ} (hn : 0 < n) (a : ℚ) : binIdx A n a < n :=
  lt_of_le_of_lt (min_le_left _ _) (Nat.sub_lt hn one_pos)

lemma countP_partition {l : List ℚ} {f : ℚ → ℕ} {n : ℕ}
    (h : ∀ a ∈ l, f a < n) :
    ∑ i ∈ Finset.range n, l.countP (fun a => f a == i) = l.length := by
  induction l with
  | nil => simp
  | cons a l ih =>
    have ha : f a < n := h a (List.mem_cons_self a l)
    have hl : ∀ b ∈ l, f b < n := fun b hb => h b (List.mem_cons_of_mem a hb)
    simp only [List.countP_cons, List.length_cons]
    rw [Finset.sum_add_distrib, ih hl]
    congr 1
    simp only [beq_iff_eq]
    rw [Finset.sum_ite_eq (Finset.range n) (f a) (fun _ => 1)]
    rw [if_pos (Finset.mem_range.mpr ha)]

lemma sum_count {A : List ℚ} {n : ℕ} (hn : 0 < n) :
    ∑ i ∈ Finset.range n, count A n i = A.length :=
  countP_partition (fun a _ => binIdx_lt hn a)

lemma cumCount_last {A : List ℚ} {n : ℕ} (hn : 0 < n) :
    cumCount A n (n - 1) = A.length := by
  rw [cumCount, Nat.sub_add_cancel hn]
  exact sum_count hn

lemma length_pos_q {A : List ℚ} (hA : A ≠ []) : (0:ℚ) < A.length := by
  exact_mod_cast List.length_pos.mpr hA

lemma cdfVal_last {A : List ℚ} {n : ℕ} (hA : A ≠ []) (hn : 0 < n) :
    cdfVal A n (n - 1) = 1 := by
  rw [cdfVal, cumCount_last hn, div_self (ne_of_gt (length_pos_q hA))]

lemma cumCount_mono {A : List ℚ} {n i j : ℕ} (h : i ≤ j) :
    cumCount A n i ≤ cumCount A n j :=
  Finset.sum_le_sum_of_subset (Finset.range_subset.mpr (by omega))

lemma cumCount_gap {A : List ℚ} {n i j : ℕ} (hij : i < j) :
    cumCount A n i + count A n j ≤ cumCount A n j := by
  have e : cumCount A n j = (∑ t ∈ Finset.range j, count A n t) + count A n j :=
    Finset.sum_range_succ _ j
  have h2 : cumCount A n i ≤ ∑ t ∈ Finset.range j, count A n t :=
    Finset.sum_le_sum_of_subset (Finset.range_subset.mpr (by omega))
  omega

lemma cdfVal_gap {A : List ℚ} {n i j : ℕ} (hA : A ≠ [])
    (hij : i < j) (hcj : 0 < count A n j) :
    cdfVal A n i + 1 / A.length ≤ cdfVal A n j := by
  have hN : (0:ℚ) < A.length := length_pos_q hA
  rw [cdfVal, cdfVal, div_add_div_same, div_le_div_iff_of_pos_right hN]
  have : cumCount A n i + 1 ≤ cumCount A n j := by
    have := cumCount_gap (A := A) (n := n) hij
    omega
  exact_mod_cast this

lemma mem_keptIdx {A : List ℚ} {n i : ℕ} :
    i ∈ keptIdx A n ↔ i < n ∧ 0 < count A n i := by
  simp [keptIdx, List.mem_filter, List.mem_range]

lemma keptIdx_pairwise (A : List ℚ) (n : ℕ) :
    (keptIdx A n).Pairwise (· < ·) :=
  (List.pairwise_lt_range n).filter _

lemma center_eq {A : List ℚ} {n i : ℕ} :
    center A n i = histLo A + i * binW A n + binW A n / 2 := by
  rw [center, edge, edge, edge]
  push_cast
  ring

lemma center_lt_center {A : List ℚ} {n i j : ℕ} (hw : 0 < binW A n)
    (hij : i < j) : center A n i < center A n j := by
  rw [center_eq, center_eq]
  have hq : (i:ℚ) < j := by exact_mod_cast hij
  have := mul_lt_mul_of_pos_right hq hw
  linarith

end NoahDA

namespace NoahDA

lemma edge_le_iff {A : List ℚ} {n i : ℕ} {a : ℚ} (hw : 0 < binW A n) :
    edge A n i ≤ a ↔ (i:ℚ) ≤ (a - histLo A) / binW A n := by
  rw [edge, le_div_iff hw]
  constructor <;> intro h <;> linarith

lemma lt_edge_iff {A : List ℚ} {n i : ℕ} {a : ℚ} (hw : 0 < binW A n) :
    a < edge A n i ↔ (a - histLo A) / binW A n < (i:ℚ) := by
  rw [edge, div_lt_iff hw]
  constructor <;> intro h <;> linarith

lemma binIdx_eq_iff_mid {A : List ℚ} {n i : ℕ} {a : ℚ} (hA : A ≠ [])
    (hn : 0 < n) (hlo : histLo A ≤ a) (hi : i + 1 < n) :
    binIdx A n a = i ↔ edge A n i ≤ a ∧ a < edge A n (i + 1) := by
  have hw := binW_pos hA hn
  have hx0 : 0 ≤ (a - histLo A) / binW A n := div_nonneg (by linarith) (le_of_lt hw)
  have hfl0 : 0 ≤ ⌊(a - histLo A) / binW A n⌋ := Int.floor_nonneg.mpr hx0
  rw [binIdx, edge_le_iff hw, lt_edge_iff hw]
  constructor
  · intro h
    have ht : ⌊(a - histLo A) / binW A n⌋.toNat = i := by
      rcases Nat.lt_or_ge (⌊(a - histLo A) / binW A n⌋.toNat) (n - 1) with h1 | h1
      · rwa [min_eq_right (le_of_lt h1)] at h
      · rw [min_eq_left h1] at h; omega
    have hfl : ⌊(a - histLo A) / binW A n⌋ = (i:ℤ) := by omega
    constructor
    · exact_mod_cast Int.le_floor.mp (le_of_eq hfl.symm)
    · have : ((a - histLo A) / binW A n) < ((i:ℤ) + 1 : ℤ) := by
        apply Int.floor_lt.mp; omega
      push_cast at this
      push_cast
      linarith
  · rintro ⟨h1, h2⟩
    have hfl : ⌊(a - histLo A) / binW A n⌋ = (i:ℤ) := by
      rw [Int.floor_eq_iff]
      constructor
      · exact_mod_cast h1
      · push_cast at h2 ⊢; linarith
    rw [hfl]
    simp only [Int.toNat_ofNat, Int.toNat_natCast]
    exact min_eq_right (by omega)

lemma binIdx_eq_last_iff {A : List ℚ} {n : ℕ} {a : ℚ} (hA : A ≠ [])
    (hn : 0 < n) (hlo : histLo A ≤ a) :
    binIdx A n a = n - 1 ↔ edge A n (n - 1) ≤ a := by
  have hw := binW_pos hA hn
  have hx0 : 0 ≤ (a - histLo A) / binW A n := div_nonneg (by linarith) (le_of_lt hw)
  have hfl0 : 0 ≤ ⌊(a - histLo A) / binW A n⌋ := Int.floor_nonneg.mpr hx0
  rw [binIdx, edge_le_iff hw]
  constructor
  · intro h
    have h1 : n - 1 ≤ ⌊(a - histLo A) / binW A n⌋.toNat := by
      rcases Nat.lt_or_ge (⌊(a - histLo A) / binW A n⌋.toNat) (n - 1) with h1 | h1
      · rw [min_eq_right (le_of_lt h1)] at h; omega
      · exact h1
    have : ((n - 1 : ℕ) : ℤ) ≤ ⌊(a - histLo A) / binW A n⌋ :=
      (Int.le_toNat hfl0).mp h1
    exact_mod_cast Int.le_floor.mp this
  · intro h1
    have : ((n - 1 : ℕ) : ℤ) ≤ ⌊(a - histLo A) / binW A n⌋ :=
      Int.le_floor.mpr (by exact_mod_cast h1)
    have h2 : n - 1 ≤ ⌊(a - histLo A) / binW A n⌋.toNat := (Int.le_toNat hfl0).mpr this
    exact min_eq_left h2

lemma edge_n_eq_histHi {A : List ℚ} {n : ℕ} (hn : 0 < n) :
    edge A n n = histHi A := by
  have hne : (n:ℚ) ≠ 0 := Nat.cast_ne_zero.mpr (by omega)
  rw [edge, binW]
  field_simp

lemma count_eq_interval_mid {A : List ℚ} {n i : ℕ} (hA : A ≠ [])
    (hn : 0 < n) (hi : i + 1 < n) :
    count A n i =
      A.countP (fun a => decide (edge A n i ≤ a ∧ a < edge A n (i + 1))) := by
  apply List.countP_congr
  intro a ha
  simp only [beq_iff_eq, decide_eq_true_eq]
  exact binIdx_eq_iff_mid hA hn (histLo_le_mem ha) hi

lemma count_eq_interval_last {A : List ℚ} {n : ℕ} (hA : A ≠ []) (hn : 0 < n) :
    count A n (n - 1) =
      A.countP (fun a => decide (edge A n (n - 1) ≤ a ∧ a ≤ edge A n n)) := by
  apply List.countP_congr
  intro a ha
  simp only [beq_iff_eq, decide_eq_true_eq]
  rw [binIdx_eq_last_iff hA hn (histLo_le_mem ha)]
  constructor
  · intro h
    exact ⟨h, by rw [edge_n_eq_histHi hn]; exact mem_le_histHi ha⟩
  · exact fun h => h.1

lemma cast_pred {n : ℕ} (hn : 0 < n) : ((n - 1 : ℕ) : ℚ) = (n:ℚ) - 1 := by
  have h1 : (1:ℕ) ≤ n := hn
  push_cast [Nat.cast_sub h1]
  ring

lemma binIdx_sMax {A : List ℚ} {n : ℕ} (hA : A ≠ []) (hnc : sMin A ≠ sMax A)
    (hn : 0 < n) :
    binIdx A n (sMax A) = n - 1 := by
  rw [binIdx_eq_last_iff hA hn (histLo_le_mem (sMax_mem hA))]
  have hw := binW_pos hA hn
  have hhi : histHi A = sMax A := by rw [histHi, if_neg hnc]
  have hedge := edge_n_eq_histHi (A := A) hn
  rw [edge] at hedge
  rw [edge, cast_pred hn]
  have hr : ((n:ℚ) - 1) * binW A n = (n:ℚ) * binW A n - binW A n := by ring
  linarith [hedge, hw, hr, hhi.ge, hhi.le]

lemma count_last_pos {A : List ℚ} {n : ℕ} (hA : A ≠ []) (hnc : sMin A ≠ sMax A)
    (hn : 0 < n) :
    0 < count A n (n - 1) := by
  rw [count, List.countP_pos_iff]
  exact ⟨sMax A, sMax_mem hA, by simp [binIdx_sMax hA hnc hn]⟩

lemma keptIdx_eq_append {A : List ℚ} {n : ℕ} (hA : A ≠ []) (hnc : sMin A ≠ sMax A)
    (hn : 0 < n) :
    keptIdx A n =
      ((List.range (n - 1)).filter (fun i => decide (0 < count A n i))) ++ [n - 1] := by
  have hr : List.range n = List.range (n - 1) ++ [n - 1] := by
    conv_lhs => rw [show n = (n - 1) + 1 by omega]
    exact List.range_succ (n - 1)
  rw [keptIdx, hr, List.filter_append]
  congr 1
  simp [count_last_pos hA hnc hn]

lemma keptCdf_getLast {A : List ℚ} {n : ℕ} (hA : A ≠ []) (hnc : sMin A ≠ sMax A)
    (hn : 0 < n) :
    (keptCdf A n).getLastD 0 = 1 := by
  rw [keptCdf, keptIdx_eq_append hA hnc hn, List.map_append]
  simp only [List.map_cons, List.map_nil, List.getLastD_concat]
  exact cdfVal_last hA hn

lemma keptCenters_getLast {A : List ℚ} {n : ℕ} (hA : A ≠ []) (hnc : sMin A ≠ sMax A)
    (hn : 0 < n) :
    (keptCenters A n).getLastD 0 = center A n (n - 1) := by
  rw [keptCenters, keptIdx_eq_append hA hnc hn, List.map_append]
  simp only [List.map_cons, List.map_nil, List.getLastD_concat]

lemma center_last_eq {A : List ℚ} {n : ℕ} (hA : A ≠ []) (hnc : sMin A ≠ sMax A)
    (hn : 0 < n) :
    center A n (n - 1) = sMax A - (sMax A - sMin A) / (2 * n) := by
  rw [center_eq]
  have hhi : histHi A = sMax A := by rw [histHi, if_neg hnc]
  have hlo : histLo A = sMin A := by rw [histLo, if_neg hnc]
  have hne : (n:ℚ) ≠ 0 := Nat.cast_ne_zero.mpr (by omega)
  rw [binW, hhi, hlo, cast_pred hn]
  field_simp
  ring

end NoahDA

namespace NoahDA

lemma keptCenters_chain {A : List ℚ} {n : ℕ} (hA : A ≠ []) (hn : 0 < n) :
    List.Chain' (· < ·) (keptCenters A n) := by
  apply List.Pairwise.chain'
  rw [keptCenters, List.pairwise_map]
  exact (keptIdx_pairwise A n).imp
    (fun h => center_lt_center (binW_pos hA hn) h)

lemma keptCdf_chain_gap {A : List ℚ} {n : ℕ} (hA : A ≠ []) :
    List.Chain' (fun p q => p + 1 / (A.length : ℚ) ≤ q) (keptCdf A n) := by
  apply List.Pairwise.chain'
  rw [keptCdf, List.pairwise_map]
  refine List.Pairwise.imp_of_mem ?_ (keptIdx_pairwise A n)
  intro i j _ hj hij
  exact cdfVal_gap hA hij (mem_keptIdx.mp hj).2

lemma keptCdf_chain_lt {A : List ℚ} {n : ℕ} (hA : A ≠ []) :
    List.Chain' (· < ·) (keptCdf A n) := by
  refine (keptCdf_chain_gap hA).imp ?_
  intro p q h
  have h1 : (0:ℚ) < 1 / A.length := div_pos one_pos (length_pos_q hA)
  linarith

lemma mkSpline_error_of_short {xs ys : List ℚ} (h : xs.length ≤ 3) :
    mkSpline xs ys = Except.error "x and y arrays must have at least k+1 elements" := by
  rw [mkSpline, if_pos (Or.inl h)]

lemma mkSpline_isOk_len {xs ys : List ℚ} {r : Unit}
    (h : mkSpline xs ys = Except.ok r) : 3 < xs.length := by
  rw [mkSpline] at h
  split_ifs at h
  omega

lemma matchCore_ok_iff {E : Evaluator} {A B : List ℚ} {n : ℕ} {vals : List ℚ} :
    matchCore E A B n = Except.ok vals ↔
      mkSpline (keptCenters A n) (keptCdf A n) = Except.ok () ∧
      mkSpline (keptCdf B n) (keptCenters B n) = Except.ok () ∧
      vals = A.map (mapValue E A B n) := by
  rw [matchCore]
  cases h1 : mkSpline (keptCenters A n) (keptCdf A n) with
  | error e => simp
  | ok u =>
    cases u
    cases h2 : mkSpline (keptCdf B n) (keptCenters B n) with
    | error e => simp
    | ok u2 =>
      cases u2
      simp [eq_comm]

lemma matchCore_error_of_small {E : Evaluator} {A B : List ℚ} {n : ℕ}
    (h : (keptIdx A n).length ≤ 3 ∨ (keptIdx B n).length ≤ 3) :
    ∀ vals, matchCore E A B n ≠ Except.ok vals := by
  intro vals hc
  rw [matchCore_ok_iff] at hc
  obtain ⟨h1, h2, _⟩ := hc
  have l1 : 3 < (keptCenters A n).length := mkSpline_isOk_len h1
  have l2 : 3 < (keptCdf B n).length := mkSpline_isOk_len h2
  rw [keptCenters, List.length_map] at l1
  rw [keptCdf, List.length_map] at l2
  omega

lemma keptIdx_nil (n : ℕ) : keptIdx [] n = [] := by
  simp [keptIdx, count]

lemma readTarget_length (rows : List (List ℚ)) :
    (readTarget rows).length = rows.length := List.length_map _ _

lemma readObsCapped_length_zero (rows : List (List ℚ)) (c : ℕ) :
    (readObsCapped 0 c rows).length = rows.length := by
  induction rows generalizing c with
  | nil => rfl
  | cons r rs ih =>
    rw [readObsCapped, if_neg (Nat.succ_ne_zero c)]
    simp [ih (c + 1)]

lemma readObsCapped_length_pos {cap : ℕ} (rows : List (List ℚ)) {c : ℕ}
    (hc : c < cap) :
    (readObsCapped cap c rows).length = min (cap - c) rows.length := by
  induction rows generalizing c with
  | nil => simp [readObsCapped]
  | cons r rs ih =>
    rw [readObsCapped]
    by_cases h : c + 1 = cap
    · rw [if_pos h]
      simp only [List.length_cons, List.length_nil]
      omega
    · rw [if_neg h]
      simp only [List.length_cons, ih (by omega : c + 1 < cap)]
      omega

lemma matchScript_ok {E : Evaluator} {n : ℕ}
    {obsRows outRows out : List (List ℚ)}
    (h : matchScript E n obsRows outRows = Except.ok out) :
    ∃ vals,
      matchCore E (readObsCapped outRows.length 0 obsRows) (readTarget outRows) n =
        Except.ok vals ∧ out = matchWriter obsRows vals := by
  rw [matchScript] at h
  cases hc : matchCore E (readObsCapped outRows.length 0 obsRows) (readTarget outRows) n with
  | error e => rw [hc] at h; cases h
  | ok vals =>
    rw [hc] at h
    cases h
    exact ⟨vals, rfl, rfl⟩

lemma matchWriter_length (rows : List (List ℚ)) (vals : List ℚ) :
    (matchWriter rows vals).length = min rows.length vals.length := by
  rw [matchWriter, List.length_map, List.length_zip]

lemma matchWriter_getElem {rows : List (List ℚ)} {vals : List ℚ} {j : ℕ}
    {row : List ℚ} (h : (matchWriter rows vals)[j]? = some row) :
    ∃ orig v, rows[j]? = some orig ∧ vals[j]? = some v ∧ row = orig.set 5 v := by
  rw [matchWriter, List.getElem?_map] at h
  cases hz : (rows.zip vals)[j]? with
  | none => rw [hz] at h; cases h
  | some p =>
    rw [hz] at h
    obtain ⟨h1, h2⟩ := List.getElem?_zip_eq_some.mp hz
    refine ⟨p.1, p.2, h1, h2, ?_⟩
    simpa using h.symm

lemma rematchWriter_getElem {rows : List (List ℚ)} {vals : List ℚ} {j : ℕ}
    {row : List ℚ} (h : (rematchWriter rows vals)[j]? = some row) :
    ∃ orig v, rows[j]? = some orig ∧ vals[j]? = some v ∧
      row = if j < 17520 then orig.set 10 v else orig := by
  rw [rematchWriter, List.getElem?_map, List.getElem?_enum] at h
  cases hz : (rows.zip vals)[j]? with
  | none => rw [hz] at h; cases h
  | some p =>
    rw [hz] at h
    obtain ⟨h1, h2⟩ := List.getElem?_zip_eq_some.mp hz
    refine ⟨p.1, p.2, h1, h2, ?_⟩
    simpa using h.symm

lemma map_eraseIdx_comm {α β : Type} (f : α → β) (l : List α) (i : ℕ) :
    (l.eraseIdx i).map f = (l.map f).eraseIdx i := by
  induction l generalizing i with
  | nil => rfl
  | cons a l ih =>
    cases i with
    | zero => rfl
    | succ i =>
      simp only [List.eraseIdx, List.map_cons]
      rw [ih]

lemma clip01_of_ge_one {x : ℚ} (h : 1 ≤ x) : clip01 x = 1 := by
  rw [clip01, max_eq_left (by linarith : (0:ℚ) ≤ x), min_eq_right h]

lemma strictIncr_iff {xs : List ℚ} :
    strictIncr xs = true ↔ List.Chain' (· < ·) xs := by
  induction xs with
  | nil => simp [strictIncr]
  | cons a l ih =>
    cases l with
    | nil => simp [strictIncr]
    | cons b r =>
      rw [strictIncr, Bool.and_eq_true, ih, List.chain'_cons]
      simp

end NoahDA

namespace NoahDA

set_option maxRecDepth 100000 in
/-- Claim C1, counterexample: on the zero-variance source `[3, 3, 3]` (whose
histogram collapses to one nonzero-count bin) the mapping fails with the
spline constructor's own low-level size error — there is no
`InsufficientDataError` anywhere in the repository, and the raised error is
not it. -/
theorem c1_counterexample :
    errOf (matchCore splineEval4 [3, 3, 3] qB 4) =
      some "x and y arrays must have at least k+1 elements" ∧
    "x and y arrays must have at least k+1 elements" ≠ "InsufficientDataError" := by
  constructor
  · with_unfolding_all decide
  · decide

/-- Claim C1, amended: whenever the source or the target sample yields fewer
than 4 distinct nonzero-count histogram bins (in particular a zero-variance
sample, whose histogram collapses to one bin), the mapping operation fails —
it never returns a corrected sequence, so it cannot silently degrade to a
lower-order fit — but the failure is the spline constructor's own low-level
`ValueError`, not an `InsufficientDataError` (no such class exists). -/
theorem c1_insufficient_bins_fail (E : Evaluator) (A B : List ℚ) (n : ℕ)
    (h : (keptIdx A n).length < 4 ∨ (keptIdx B n).length < 4) :
    ∀ vals, matchCore E A B n ≠ Except.ok vals :=
  matchCore_error_of_small (by omega)

set_option maxRecDepth 100000 in
/-- Witness for C1: the zero-variance source `[3, 3, 3]` retains exactly one
bin, and the mapping against the healthy target `qB` returns no sequence. -/
theorem c1_witness :
    ((keptIdx ([3, 3, 3] : List ℚ) 4).length < 4 ∨ (keptIdx qB 4).length < 4) ∧
    ∀ vals, matchCore splineEval4 [3, 3, 3] qB 4 ≠ Except.ok vals :=
  ⟨Or.inl (by with_unfolding_all decide),
   c1_insufficient_bins_fail splineEval4 [3, 3, 3] qB 4
     (Or.inl (by with_unfolding_all decide))⟩

set_option maxRecDepth 100000 in
/-- Claim C2, counterexample: with source `qA = [0,1,2,3,4]`, target
`qB = [10,20,30,40,50]` and 4 bins, both retained knot sets have exactly 4
points, so `splineEval4` is exactly the scipy interpolant.  The query 5 lies
strictly above `max(source) = 4` and its clipped fraction is 1, yet the
mapped output is 45 — the target's top retained bin center — not the target's
maximum observed value 50.  And the query `-1/20` lies strictly below
`min(source) = 0`, yet its clipped cumulative fraction is not 0: the forward
spline's extrapolated value is still positive there. -/
theorem c2_counterexample :
    (keptCenters qA 4).length = 4 ∧ (keptCenters qB 4).length = 4 ∧
    sMax qA = 4 ∧ (4:ℚ) < 5 ∧
    clip01 (splineEval4 (keptCenters qA 4) (keptCdf qA 4) 5) = 1 ∧
    mapValue splineEval4 qA qB 4 5 = 45 ∧
    sMax qB = 50 ∧ (45:ℚ) ≠ 50 ∧
    sMin qA = 0 ∧ (-1/20 : ℚ) < 0 ∧
    clip01 (splineEval4 (keptCenters qA 4) (keptCdf qA 4) (-1/20)) ≠ 0 := by
  with_unfolding_all decide

/-- Claim C2, amended: the cumulative fraction of a query is clipped into
`[0,1]` before the inverse lookup, and whenever the forward spline value is at
least 1 (which happens for queries far enough above `max(source)`, but not for
every query above it) the clipped fraction is 1; the last retained cumulative
fraction of the target is exactly 1, so an evaluator that interpolates its
last knot maps such queries to the target's top retained bin center,
`max(target) - (max(target) - min(target)) / (2 n)` — strictly below the
target's maximum observed value, not equal to it. -/
theorem c2_tail_clipping (E : Evaluator) (A B : List ℚ) (n : ℕ) (v : ℚ)
    (hn : 0 < n) (hB : B ≠ []) (hnc : sMin B ≠ sMax B)
    (hE : E (keptCdf B n) (keptCenters B n) 1 = (keptCenters B n).getLastD 0)
    (hv : 1 ≤ E (keptCenters A n) (keptCdf A n) v) :
    (keptCdf B n).getLastD 0 = 1 ∧
    mapValue E A B n v = sMax B - (sMax B - sMin B) / (2 * (n:ℚ)) ∧
    mapValue E A B n v < sMax B := by
  have h1 : clip01 (E (keptCenters A n) (keptCdf A n) v) = 1 := clip01_of_ge_one hv
  have h2 : mapValue E A B n v = (keptCenters B n).getLastD 0 := by
    rw [mapValue, h1, hE]
  have h3 := keptCenters_getLast hB hnc hn
  have h4 := center_last_eq hB hnc hn
  have hq : (0:ℚ) < n := by exact_mod_cast hn
  have hlt : sMin B < sMax B := lt_of_le_of_ne (sMin_le_sMax hB) hnc
  have h5 : (0:ℚ) < (sMax B - sMin B) / (2 * (n:ℚ)) :=
    div_pos (by linarith) (by linarith)
  refine ⟨keptCdf_getLast hB hnc hn, ?_, ?_⟩
  · rw [h2, h3, h4]
  · rw [h2, h3, h4]
    linarith

set_option maxRecDepth 100000 in
/-- Witness for C2's amended theorem at the concrete run: source `qA`, target
`qB`, 4 bins, query 5. -/
theorem c2_witness :
    ((0:ℕ) < 4 ∧ qB ≠ [] ∧ sMin qB ≠ sMax qB ∧
     splineEval4 (keptCdf qB 4) (keptCenters qB 4) 1 = (keptCenters qB 4).getLastD 0 ∧
     1 ≤ splineEval4 (keptCenters qA 4) (keptCdf qA 4) 5) ∧
    ((keptCdf qB 4).getLastD 0 = 1 ∧
     mapValue splineEval4 qA qB 4 5 = sMax qB - (sMax qB - sMin qB) / (2 * ((4:ℕ):ℚ)) ∧
     mapValue splineEval4 qA qB 4 5 < sMax qB) :=
  ⟨⟨by decide, by decide, by with_unfolding_all decide,
    by with_unfolding_all decide, by with_unfolding_all decide⟩,
   c2_tail_clipping splineEval4 qA qB 4 5 (by decide) (by decide)
     (by with_unfolding_all decide) (by with_unfolding_all decide)
     (by with_unfolding_all decide)⟩

set_option maxRecDepth 100000 in
/-- Claim C3, counterexample: with source `qA`, target `qB` and 4 bins (both
retained knot sets of size exactly 4, so `splineEval4` is the scipy
interpolant), the finite query `-1` maps to `15/2`, strictly below the
target's minimum observed value `10`: the mapped output escapes
`[min(target), max(target)]`. -/
theorem c3_counterexample :
    (keptCenters qA 4).length = 4 ∧ (keptCenters qB 4).length = 4 ∧
    mapValue splineEval4 qA qB 4 (-1) = 15 / 2 ∧
    sMin qB = 10 ∧ (15 / 2 : ℚ) < 10 := by
  with_unfolding_all decide

/-- Claim C3, amended: containment in `[min(target), max(target)]` is not
guaranteed in general (the inverse spline extrapolates below its first knot
for clipped fraction 0, see the counterexample), but any query whose clipped
forward fraction coincides with a retained cumulative fraction of the target
is mapped — by an evaluator interpolating that knot — to the corresponding
retained bin center, which does lie within `[min(target), max(target)]`. -/
theorem c3_range_containment_at_knots (E : Evaluator) (A B : List ℚ) (n : ℕ)
    (v : ℚ) (j : ℕ) (hB : B ≠ []) (hnc : sMin B ≠ sMax B) (hn : 0 < n)
    (hj : j ∈ keptIdx B n)
    (hc : clip01 (E (keptCenters A n) (keptCdf A n) v) = cdfVal B n j)
    (hE : E (keptCdf B n) (keptCenters B n) (cdfVal B n j) = center B n j) :
    sMin B ≤ mapValue E A B n v ∧ mapValue E A B n v ≤ sMax B := by
  have hmap : mapValue E A B n v = center B n j := by rw [mapValue, hc, hE]
  obtain ⟨hjn, _⟩ := mem_keptIdx.mp hj
  have hw := binW_pos hB hn
  have hlo : histLo B = sMin B := by rw [histLo, if_neg hnc]
  have hhi : histHi B = sMax B := by rw [histHi, if_neg hnc]
  have hedge := edge_n_eq_histHi (A := B) hn
  rw [edge, hlo, hhi] at hedge
  rw [hmap, center_eq, hlo]
  have hj1 : (j:ℚ) ≤ (n:ℚ) - 1 := by
    have : (j:ℚ) + 1 ≤ (n:ℚ) := by exact_mod_cast hjn
    linarith
  constructor
  · have h0 : 0 ≤ (j:ℚ) * binW B n := mul_nonneg (Nat.cast_nonneg j) (le_of_lt hw)
    linarith
  · have hmul : (j:ℚ) * binW B n ≤ ((n:ℚ) - 1) * binW B n :=
      mul_le_mul_of_nonneg_right hj1 (le_of_lt hw)
    have hr : ((n:ℚ) - 1) * binW B n = (n:ℚ) * binW B n - binW B n := by ring
    linarith

set_option maxRecDepth 100000 in
/-- Witness for C3's amended theorem: the query `5/2` hits the retained
cumulative fraction `3/5` of `qB` exactly, and maps to the retained center 35,
inside `[10, 50]`. -/
theorem c3_witness :
    (qB ≠ [] ∧ sMin qB ≠ sMax qB ∧ (0:ℕ) < 4 ∧ 2 ∈ keptIdx qB 4 ∧
     clip01 (splineEval4 (keptCenters qA 4) (keptCdf qA 4) (5 / 2)) = cdfVal qB 4 2 ∧
     splineEval4 (keptCdf qB 4) (keptCenters qB 4) (cdfVal qB 4 2) = center qB 4 2) ∧
    (sMin qB ≤ mapValue splineEval4 qA qB 4 (5 / 2) ∧
     mapValue splineEval4 qA qB 4 (5 / 2) ≤ sMax qB) :=
  ⟨⟨by decide, by with_unfolding_all decide, by decide,
    by with_unfolding_all decide, by with_unfolding_all decide,
    by with_unfolding_all decide⟩,
   c3_range_containment_at_knots splineEval4 qA qB 4 (5 / 2) 2 (by decide)
     (by with_unfolding_all decide) (by decide) (by with_unfolding_all decide)
     (by with_unfolding_all decide) (by with_unfolding_all decide)⟩

/-- Claim C4: a NaN entry in the query propagates as NaN at the same position
of the output (no exception is modelled anywhere in the evaluation), and the
mapped values at all other positions are exactly those obtained with the NaN
entry removed from the query — the mapping is positionwise. -/
theorem c4_nan_propagation (F Q : ℚ → ℚ) (query : List (Option ℚ)) (i : ℕ)
    (h : query[i]? = some none) :
    (mapQueryNaN F Q query)[i]? = some none ∧
    mapQueryNaN F Q (query.eraseIdx i) = (mapQueryNaN F Q query).eraseIdx i := by
  constructor
  · rw [mapQueryNaN, List.getElem?_map, h]
    rfl
  · exact map_eraseIdx_comm _ query i

/-- Witness for C4: a three-entry query with a NaN in the middle. -/
theorem c4_witness :
    ([some 1, none, some 2] : List (Option ℚ))[1]? = some none ∧
    ((mapQueryNaN id id [some 1, none, some 2])[1]? = some none ∧
     mapQueryNaN id id (([some 1, none, some 2] : List (Option ℚ)).eraseIdx 1) =
       (mapQueryNaN id id [some 1, none, some 2]).eraseIdx 1) :=
  ⟨rfl, c4_nan_propagation id id [some 1, none, some 2] 1 rfl⟩

end NoahDA

namespace NoahDA

set_option maxRecDepth 100000 in
/-- Claim C5, counterexample: for the zero-variance sample `[3, 3, 3]` the
histogram bins do not span the observed min and max (both 3): numpy pads the
degenerate range, so the first edge is `5/2` and the last edge `7/2`. -/
theorem c5_counterexample :
    sMin ([3, 3, 3] : List ℚ) = 3 ∧ sMax ([3, 3, 3] : List ℚ) = 3 ∧
    edge ([3, 3, 3] : List ℚ) 4 0 = 5 / 2 ∧ edge ([3, 3, 3] : List ℚ) 4 4 = 7 / 2 ∧
    (5 / 2 : ℚ) ≠ 3 := by
  with_unfolding_all decide

/-- Claim C5, amended: for every non-empty sample the construction builds an
equal-width histogram of `n` bins spanning the observed min and max when they
differ (and the padded interval `[min - 1/2, max + 1/2]` when the sample has
zero variance); bin representatives equal bin midpoints; bin counts are the
numbers of sample values in `[eᵢ, eᵢ₊₁)` (last bin closed); cumulative counts
are normalized by the sample size, are monotone in increasing-value order and
reach exactly 1 at the last bin; and exactly the zero-count bins (with their
cumulative values) are dropped before the spline interpolants are fitted. -/
theorem c5_cdf_construction (A : List ℚ) (n : ℕ) (hA : A ≠ []) (hn : 0 < n) :
    ((sMin A ≠ sMax A → edge A n 0 = sMin A ∧ edge A n n = sMax A) ∧
     (sMin A = sMax A → edge A n 0 = sMin A - 1/2 ∧ edge A n n = sMax A + 1/2)) ∧
    (∀ i, edge A n (i + 1) - edge A n i = binW A n) ∧
    (∀ i, center A n i = (edge A n i + edge A n (i + 1)) / 2) ∧
    (∀ i, i + 1 < n →
      count A n i =
        A.countP (fun a => decide (edge A n i ≤ a ∧ a < edge A n (i + 1)))) ∧
    (count A n (n - 1) =
      A.countP (fun a => decide (edge A n (n - 1) ≤ a ∧ a ≤ edge A n n))) ∧
    (∀ i j, i ≤ j → cdfVal A n i ≤ cdfVal A n j) ∧
    cdfVal A n (n - 1) = 1 ∧
    (∀ i, i ∈ keptIdx A n ↔ i < n ∧ 0 < count A n i) ∧
    keptCenters A n = (keptIdx A n).map (center A n) ∧
    keptCdf A n = (keptIdx A n).map (cdfVal A n) := by
  refine ⟨⟨?_, ?_⟩, ?_, ?_, ?_, ?_, ?_, ?_, ?_, rfl, rfl⟩
  · intro hnc
    constructor
    · rw [edge, histLo, if_neg hnc]; push_cast; ring
    · rw [edge_n_eq_histHi hn, histHi, if_neg hnc]
  · intro hc
    constructor
    · rw [edge, histLo, if_pos hc]; push_cast; ring
    · rw [edge_n_eq_histHi hn, histHi, if_pos hc]
  · intro i; rw [edge, edge]; push_cast; ring
  · intro i; rw [center_eq, edge, edge]; push_cast; ring
  · intro i hi; exact count_eq_interval_mid hA hn hi
  · exact count_eq_interval_last hA hn
  · intro i j hij
    rw [cdfVal, cdfVal, div_le_div_iff_of_pos_right (length_pos_q hA)]
    exact_mod_cast cumCount_mono hij
  · exact cdfVal_last hA hn
  · intro i; exact mem_keptIdx

/-- Witness for C5 at the concrete sample `qA` with 4 bins. -/
theorem c5_witness :
    (qA ≠ [] ∧ (0:ℕ) < 4) ∧
    (((sMin qA ≠ sMax qA → edge qA 4 0 = sMin qA ∧ edge qA 4 4 = sMax qA) ∧
      (sMin qA = sMax qA → edge qA 4 0 = sMin qA - 1/2 ∧ edge qA 4 4 = sMax qA + 1/2)) ∧
     (∀ i, edge qA 4 (i + 1) - edge qA 4 i = binW qA 4) ∧
     (∀ i, center qA 4 i = (edge qA 4 i + edge qA 4 (i + 1)) / 2) ∧
     (∀ i, i + 1 < 4 →
       count qA 4 i =
         qA.countP (fun a => decide (edge qA 4 i ≤ a ∧ a < edge qA 4 (i + 1)))) ∧
     (count qA 4 (4 - 1) =
       qA.countP (fun a => decide (edge qA 4 (4 - 1) ≤ a ∧ a ≤ edge qA 4 4))) ∧
     (∀ i j, i ≤ j → cdfVal qA 4 i ≤ cdfVal qA 4 j) ∧
     cdfVal qA 4 (4 - 1) = 1 ∧
     (∀ i, i ∈ keptIdx qA 4 ↔ i < 4 ∧ 0 < count qA 4 i) ∧
     keptCenters qA 4 = (keptIdx qA 4).map (center qA 4) ∧
     keptCdf qA 4 = (keptIdx qA 4).map (cdfVal qA 4)) :=
  ⟨⟨by decide, by decide⟩, c5_cdf_construction qA 4 (by decide) (by decide)⟩

/-- Claim C6: the core mapping computations of the two scripts are the same
function — on identical in-memory samples `A` (source/query) and `B` (target)
and the same bin count, `match_sm_CFD.py` and `rematch_sm_CFD.py` produce
identical corrected output sequences for every spline evaluator. -/
theorem c6_cores_equal : ∀ (E : Evaluator) (A B : List ℚ) (n : ℕ),
    matchCore E A B n = rematchCore E A B n :=
  fun _ _ _ _ => rfl

/-- Claim C7: every row written by the match script's writer corresponds
positionally to the input row of the same index, every field other than
index 5 (including all trailing fields) is unchanged from that input row, and
the written row is exactly the input row with field 5 replaced by the mapped
value. -/
theorem c7_match_writer_frame (rows : List (List ℚ)) (vals : List ℚ) (j : ℕ)
    (row : List ℚ) (h : (matchWriter rows vals)[j]? = some row) :
    ∃ orig, rows[j]? = some orig ∧
      (∀ i, i ≠ 5 → row[i]? = orig[i]?) ∧
      ∃ v, vals[j]? = some v ∧ row = orig.set 5 v := by
  obtain ⟨orig, v, h1, h2, h3⟩ := matchWriter_getElem h
  refine ⟨orig, h1, ?_, v, h2, h3⟩
  intro i hi
  rw [h3]
  exact List.getElem?_set_ne (by omega)

/-- Witness for C7: a single eight-field row with field 5 replaced by 99. -/
theorem c7_witness :
    (matchWriter [[0, 1, 2, 3, 4, 5, 6, 7]] [99])[0]? =
      some ([0, 1, 2, 3, 4, 99, 6, 7] : List ℚ) ∧
    ∃ orig, ([[0, 1, 2, 3, 4, 5, 6, 7]] : List (List ℚ))[0]? = some orig ∧
      (∀ i, i ≠ 5 → ([0, 1, 2, 3, 4, 99, 6, 7] : List ℚ)[i]? = orig[i]?) ∧
      ∃ v, ([99] : List ℚ)[0]? = some v ∧
        ([0, 1, 2, 3, 4, 99, 6, 7] : List ℚ) = orig.set 5 v :=
  ⟨rfl, c7_match_writer_frame [[0, 1, 2, 3, 4, 5, 6, 7]] [99] 0
    [0, 1, 2, 3, 4, 99, 6, 7] rfl⟩

/-- Claim C8: in the re-match script's writer the column-10 replacement is
applied exactly to the written rows of index strictly below the hard-coded cap
17520; every written row of index 17520 or beyond is the input row with all
fields unchanged. -/
theorem c8_rematch_cap (rows : List (List ℚ)) (vals : List ℚ) (j : ℕ)
    (row : List ℚ) (h : (rematchWriter rows vals)[j]? = some row) :
    (j < 17520 → ∃ orig v, rows[j]? = some orig ∧ vals[j]? = some v ∧
        row = orig.set 10 v) ∧
    (17520 ≤ j → rows[j]? = some row) := by
  obtain ⟨orig, v, h1, h2, h3⟩ := rematchWriter_getElem h
  constructor
  · intro hj
    exact ⟨orig, v, h1, h2, by rw [h3, if_pos hj]⟩
  · intro hj
    rw [h3, if_neg (by omega)]
    exact h1

/-- Witness for C8: the first written row (index 0 < 17520) gets its
column 10 replaced by 99. -/
theorem c8_witness :
    (rematchWriter [rowW] [99])[0]? = some (rowW.set 10 99) ∧
    ((0 < 17520 → ∃ orig v, ([rowW] : List (List ℚ))[0]? = some orig ∧
        ([99] : List ℚ)[0]? = some v ∧ rowW.set 10 99 = orig.set 10 v) ∧
     (17520 ≤ 0 → ([rowW] : List (List ℚ))[0]? = some (rowW.set 10 99))) :=
  ⟨rfl, c8_rematch_cap [rowW] [99] 0 (rowW.set 10 99) rfl⟩

/-- Claim C9: for every non-empty sample the retained (bin-center,
cumulative-fraction) pairs are strictly increasing in both coordinates — each
retained bin adds at least `1 / N` to the cumulative fraction — so the
strictly-increasing-abscissa precondition of both spline constructors
(including the inverse fit using cumulative fractions as abscissae) holds,
and whenever the size precondition is met both constructors succeed: their
error branches are unreachable. -/
theorem c9_strictly_increasing_knots (A : List ℚ) (n : ℕ) (hA : A ≠ [])
    (hn : 0 < n) :
    List.Chain' (· < ·) (keptCenters A n) ∧
    List.Chain' (fun p q => p + 1 / (A.length : ℚ) ≤ q) (keptCdf A n) ∧
    List.Chain' (· < ·) (keptCdf A n) ∧
    strictIncr (keptCenters A n) = true ∧
    strictIncr (keptCdf A n) = true ∧
    (3 < (keptIdx A n).length →
      mkSpline (keptCenters A n) (keptCdf A n) = Except.ok () ∧
      mkSpline (keptCdf A n) (keptCenters A n) = Except.ok ()) := by
  have hc := keptCenters_chain hA hn
  have hg := keptCdf_chain_gap (n := n) hA
  have hl := keptCdf_chain_lt (n := n) hA
  refine ⟨hc, hg, hl, strictIncr_iff.mpr hc, strictIncr_iff.mpr hl, ?_⟩
  intro hlen
  have e1 : (keptCenters A n).length = (keptIdx A n).length := List.length_map _ _
  have e2 : (keptCdf A n).length = (keptIdx A n).length := List.length_map _ _
  constructor
  · have hsc : strictIncr (keptCenters A n) = true := strictIncr_iff.mpr hc
    rw [mkSpline, if_neg (by push_neg; omega), if_pos hsc]
  · have hsl : strictIncr (keptCdf A n) = true := strictIncr_iff.mpr hl
    rw [mkSpline, if_neg (by push_neg; omega), if_pos hsl]

/-- Witness for C9 at the concrete sample `qA` with 4 bins. -/
theorem c9_witness :
    (qA ≠ [] ∧ (0:ℕ) < 4) ∧
    (List.Chain' (· < ·) (keptCenters qA 4) ∧
     List.Chain' (fun p q => p + 1 / (qA.length : ℚ) ≤ q) (keptCdf qA 4) ∧
     List.Chain' (· < ·) (keptCdf qA 4) ∧
     strictIncr (keptCenters qA 4) = true ∧
     strictIncr (keptCdf qA 4) = true ∧
     (3 < (keptIdx qA 4).length →
       mkSpline (keptCenters qA 4) (keptCdf qA 4) = Except.ok () ∧
       mkSpline (keptCdf qA 4) (keptCenters qA 4) = Except.ok ())) :=
  ⟨⟨by decide, by decide⟩, c9_strictly_increasing_knots qA 4 (by decide) (by decide)⟩

/-- Claim C10: whenever the match script completes (returns its output rows),
the number of rows written equals the minimum of the two input files' row
counts: the source reader stops once it has as many values as the target
file has rows, and the writer's zip truncates to the corrected sequence, so
trailing record rows are dropped rather than passed through. -/
theorem c10_written_row_count (E : Evaluator) (n : ℕ)
    (obsRows outRows out : List (List ℚ))
    (h : matchScript E n obsRows outRows = Except.ok out) :
    out.length = min obsRows.length outRows.length := by
  obtain ⟨vals, hok, hout⟩ := matchScript_ok h
  rcases Nat.eq_zero_or_pos outRows.length with hz | hpos
  · exfalso
    have hB : readTarget outRows = [] := by
      have he : outRows = [] := List.length_eq_zero.mp hz
      rw [he]; rfl
    refine matchCore_error_of_small (Or.inr ?_) vals hok
    rw [hB, keptIdx_nil]
    simp
  · have hvals : vals.length = (readObsCapped outRows.length 0 obsRows).length := by
      rw [matchCore_ok_iff] at hok
      rw [hok.2.2, List.length_map]
    have hread : (readObsCapped outRows.length 0 obsRows).length =
        min (outRows.length - 0) obsRows.length :=
      readObsCapped_length_pos obsRows hpos
    rw [hout, matchWriter_length, hvals, hread]
    omega

set_option maxRecDepth 1000000 in
/-- Witness for C10: a successful end-to-end run on five well-formed rows per
file (under the constantly-zero evaluator, which the statement quantifies
over) writes exactly `min 5 5 = 5` rows. -/
theorem c10_witness :
    matchScript (fun _ _ _ => 0) 4 obsRowsW outRowsW = Except.ok writtenW ∧
    writtenW.length = min obsRowsW.length outRowsW.length :=
  ⟨by with_unfolding_all decide,
   c10_written_row_count (fun _ _ _ => 0) 4 obsRowsW outRowsW writtenW
     (by with_unfolding_all decide)⟩

end NoahDA
